import Mathlib

/-!
Shallow embedding of `gtdbtk/ani_rep.py` (classes `ANIRep`, `ANISummaryFile`,
`ANIClosestFile`).

Modelling conventions:
* Python `dict[str, V]` values are association lists `List (String × V)` in
  insertion order; `dlookup`/`dinsert` implement dict lookup and
  insert-with-overwrite.
* Python `float` ANI and alignment-fraction values are rationals `ℚ`.
* Python string comparison is code-point lexicographic; `strLe` implements it
  over `String.data`.
* Python `sorted` is a stable sort by a key function; it is modelled by
  `List.mergeSort` (a stable merge sort) with the Bool comparator obtained
  from the key.
* `canonical_gid`, the taxonomy table, the GTDB radii table and the config
  constants `AF_THRESHOLD`, `FASTANI_GENOMES_EXT`, `FASTANI_DIR` live outside
  this file in the original project; they are passed as parameters
  (`canonical`, `taxonomy`, `radii`, `afThreshold`, `ext`, `dir`).  The
  taxonomy is partial (`String → Option (List String)`): a `none` models a
  Python `KeyError` on `self.taxonomy[...]`.
* A raised Python exception is an `Except.error`.
-/

namespace AniRep

/-- Code-point lexicographic comparison of character lists, as Python compares
strings. -/
def listCharLe : List Char → List Char → Bool
  | [], _ => true
  | _ :: _, [] => false
  | a :: as, b :: bs =>
    if a.toNat < b.toNat then true
    else if b.toNat < a.toNat then false
    else listCharLe as bs

/-- Python string `<=` (code-point lexicographic). -/
def strLe (a b : String) : Bool := listCharLe a.data b.data

/-- Lookup in a Python dict represented as an association list. -/
def dlookup {α : Type} (k : String) : List (String × α) → Option α
  | [] => none
  | p :: ps => if p.1 = k then some p.2 else dlookup k ps

/-- Python dict assignment `d[k] = v`: overwrite in place when the key is
present, append otherwise. -/
def dinsert {α : Type} (d : List (String × α)) (k : String) (v : α) :
    List (String × α) :=
  if d.any (fun p => decide (p.1 = k)) then
    d.map (fun p => if p.1 = k then (k, v) else p)
  else d ++ [(k, v)]

/-- Build a Python dict from a sequence of insertions (dict literal with
unpacking inserts items left to right, later items overwriting earlier
ones). -/
def dictOfPairs {α : Type} (l : List (String × α)) : List (String × α) :=
  l.foldl (fun d p => dinsert d p.1 p.2) []

/-- The combined path lookup `d_paths = {**genomes, **ref_genomes}` built in
`ANIRep.run`. -/
def mergedPaths (genomes ref_genomes : List (String × String)) :
    List (String × String) :=
  dictOfPairs (genomes ++ ref_genomes)

/-- Python `full_name.endswith(ext)`. -/
def endsWithS (full_name ext : String) : Bool :=
  List.isSuffixOf ext.data full_name.data

/-- Python `full_name.split(ext)[0]`: the prefix of `full_name` before the
first occurrence of `ext` (the whole string when `ext` does not occur). -/
def splitFirstAux (ext : List Char) : List Char → List Char
  | [] => []
  | c :: cs => if ext.isPrefixOf (c :: cs) then [] else c :: splitFirstAux ext cs

/-- Accession derivation `full_name.split(FASTANI_GENOMES_EXT)[0]` in
`ANIRep._get_ref_genomes`. -/
def stripExt (ext full_name : String) : String :=
  ⟨splitFirstAux ext.data full_name.data⟩

/-- Relative `os.path.join(a, b, c)`. -/
def pjoin (a b c : String) : String := a ++ "/" ++ b ++ "/" ++ c

/-- Error raised while loading the reference genome manifest: reading the
local variable `accession` before any assignment (Python
`UnboundLocalError`). -/
inductive LoadErr where
  | unboundAccession
deriving DecidableEq

/-- One iteration of the manifest loop in `ANIRep._get_ref_genomes`.  The
state is the current value of the local variable `accession` (absent before
its first assignment) together with the dict built so far.  A manifest line is
the pair `(full_name, path)` produced by `line.strip().split()`. -/
def refStep (ext dir : String) (st : Option String × List (String × String))
    (ln : String × String) :
    Except LoadErr (Option String × List (String × String)) :=
  let acc := if endsWithS ln.1 ext then some (stripExt ext ln.1) else st.1
  match acc with
  | none => .error .unboundAccession
  | some a => .ok (some a, dinsert st.2 a (pjoin dir ln.2 ln.1))

/-- The manifest loop of `ANIRep._get_ref_genomes`: run `refStep` over the
lines left to right, stopping at the first raised error. -/
def refFold (ext dir : String) (st : Option String × List (String × String)) :
    List (String × String) →
      Except LoadErr (Option String × List (String × String))
  | [] => .ok st
  | ln :: ls =>
    match refStep ext dir st ln with
    | .error e => .error e
    | .ok st' => refFold ext dir st' ls

/-- `ANIRep._get_ref_genomes`: fold the manifest lines, returning the
accession-to-path dict, or the error raised mid-loop. -/
def getRefGenomes (ext dir : String) (lines : List (String × String)) :
    Except LoadErr (List (String × String)) :=
  (refFold ext dir (none, []) lines).map (fun st => st.2)

/-- The value of the `accession` variable after processing `lines`, starting
from state `st`. -/
def accAfter (ext : String) (st : Option String) :
    List (String × String) → Option String
  | [] => st
  | ln :: ls =>
    accAfter ext (if endsWithS ln.1 ext then some (stripExt ext ln.1) else st) ls

/-- The most recent manifest line whose filename token has the extension. -/
def lastMatchLine (ext : String) (lines : List (String × String)) :
    Option (String × String) :=
  lines.reverse.find? (fun ln => endsWithS ln.1 ext)

/-- One ANI/alignment-fraction record of the FastANI results (a
`SimilarityRecord`). -/
structure Hit where
  ani : ℚ
  af : ℚ
deriving DecidableEq

/-- The nested FastANI result dict: query id to (reference id to record). -/
abbrev SimTable := List (String × List (String × Hit))

/-- Candidate-set accumulation in `ANIRep.run` for the Mash pre-filter branch:
`d_compare` is a `defaultdict(set)` and each Mash result row contributes
`d_compare[qry_gid] = d_compare[qry_gid].union(set(ref_hits.keys()))`. -/
def buildCandidatesMash (mash_results : List (String × List String)) :
    List (String × Finset String) :=
  mash_results.foldl
    (fun d p => dinsert d p.1 (((dlookup p.1 d).getD ∅) ∪ p.2.toFinset)) []

/-- Error raised by a report writer: a failed dict lookup
`self.taxonomy[canonical_rid]` (Python `KeyError`). -/
inductive TaxErr where
  | keyError (rid : String)
deriving DecidableEq

/-- Left-to-right effectful map over `Except`, stopping at the first error:
the shape of a Python loop that writes one row per element and can raise. -/
def mapE {α β : Type} {ε : Type} (f : α → Except ε β) :
    List α → Except ε (List β)
  | [] => .ok []
  | x :: xs =>
    match f x with
    | .error e => .error e
    | .ok y => (mapE f xs).map (fun ys => y :: ys)

/-- Sort key of `ANIClosestFile._write`, line 201: Python key
`(-ani, -af)`, so `x` sorts before `y` iff `x` has larger ANI, or equal ANI
and at-least-as-large alignment fraction. -/
def closestKeyLe (x y : String × Hit) : Bool :=
  decide (y.2.ani < x.2.ani ∨ (x.2.ani = y.2.ani ∧ y.2.af ≤ x.2.af))

/-- Sort key of `ANISummaryFile._write`, line 154: Python key
`(-af, -ani, ref_gid)`. -/
def summaryKeyLe (x y : String × Hit) : Bool :=
  decide (y.2.af < x.2.af ∨
    (x.2.af = y.2.af ∧
      (y.2.ani < x.2.ani ∨
        (x.2.ani = y.2.ani ∧ strLe x.1 y.1 = true))))

/-- Sort order of `sorted(self.results.items())` in `ANISummaryFile._write`:
Python tuple comparison on `(key, value)` pairs, which for distinct dict keys
is comparison of the keys. -/
def itemKeyLe {α : Type} (x y : String × α) : Bool := strLe x.1 y.1

/-- One tab-separated field of the closest-match report. -/
inductive Field where
  | s (v : String)
  | q (v : ℚ)
  | b (v : Bool)
deriving DecidableEq

/-- The literal placeholder field written for queries without a result. -/
def noResult : Field := Field.s "no result"

/-- The row written by `ANIClosestFile._write` for one query genome id:
either the full six-column row, the five-placeholder row (compared, no
qualifying hit), the four-placeholder row (not compared), or a raised
`KeyError` from the taxonomy lookup. -/
def closestRowFor (results : SimTable) (min_af : ℚ)
    (taxonomy : String → Option (List String)) (radii : String → ℚ)
    (canonical : String → String) (afThreshold : ℚ) (gid : String) :
    Except TaxErr (List Field) :=
  match dlookup gid results with
  | some hits =>
    let thresh_results := hits.filter (fun x => decide (min_af ≤ x.2.af))
    match thresh_results.mergeSort closestKeyLe with
    | c :: _ =>
      let canonical_rid := canonical c.1
      match taxonomy canonical_rid with
      | none => .error (.keyError canonical_rid)
      | some tx =>
        .ok [Field.s gid, Field.s c.1, Field.q c.2.ani, Field.q c.2.af,
             Field.s (String.intercalate ";" tx),
             Field.b (decide (radii canonical_rid ≤ c.2.ani ∧
                              afThreshold ≤ c.2.af))]
    | [] => .ok (Field.s gid :: List.replicate 5 noResult)
  | none => .ok (Field.s gid :: List.replicate 4 noResult)

/-- `ANIClosestFile._write`: one row per query genome id, in ascending order
of query id.  `genomes` is the key list of the caller-supplied genome dict. -/
def writeClosest (results : SimTable) (genomes : List String) (min_af : ℚ)
    (taxonomy : String → Option (List String)) (radii : String → ℚ)
    (canonical : String → String) (afThreshold : ℚ) :
    Except TaxErr (List (List Field)) :=
  mapE (closestRowFor results min_af taxonomy radii canonical afThreshold)
    (genomes.mergeSort strLe)

/-- One data row of the summary report (the five tab-separated columns). -/
structure SummaryRow where
  qry : String
  ref : String
  ani : ℚ
  af : ℚ
  tax : String
deriving DecidableEq

/-- The row written by `ANISummaryFile._write` for one (query, reference)
hit, or the raised `KeyError` when the canonical reference id is missing from
the taxonomy. -/
def summaryRowFor (taxonomy : String → Option (List String))
    (canonical : String → String) (qry_gid : String) (x : String × Hit) :
    Except TaxErr SummaryRow :=
  let canonical_rid := canonical x.1
  match taxonomy canonical_rid with
  | none => .error (.keyError canonical_rid)
  | some tx =>
    .ok ⟨qry_gid, x.1, x.2.ani, x.2.af, String.intercalate ";" tx⟩

/-- The block of rows written for one query of the summary report: its hits
sorted by the key `(-af, -ani, ref_gid)`. -/
def summaryRowsFor (taxonomy : String → Option (List String))
    (canonical : String → String) (it : String × List (String × Hit)) :
    Except TaxErr (List SummaryRow) :=
  mapE (summaryRowFor taxonomy canonical it.1)
    (it.2.mergeSort summaryKeyLe)

/-- `ANISummaryFile._write`: queries in ascending order of id, each block
sorted by `(-af, -ani, ref_gid)`. -/
def writeSummary (results : SimTable)
    (taxonomy : String → Option (List String))
    (canonical : String → String) : Except TaxErr (List SummaryRow) :=
  (mapE (summaryRowsFor taxonomy canonical)
    (results.mergeSort itemKeyLe)).map List.flatten

/-! Helper lemmas: comparators are total preorders. -/

theorem listCharLe_total (as bs : List Char) :
    (listCharLe as bs || listCharLe bs as) = true := by
  induction as generalizing bs with
  | nil => simp [listCharLe]
  | cons a as ih =>
    cases bs with
    | nil => simp [listCharLe]
    | cons b bs =>
      simp only [listCharLe]
      by_cases h1 : a.toNat < b.toNat
      · simp [h1]
      · by_cases h2 : b.toNat < a.toNat
        · simp [h1, h2]
        · simp [h1, h2, ih bs]

theorem listCharLe_trans (as bs cs : List Char) :
    listCharLe as bs = true → listCharLe bs cs = true →
      listCharLe as cs = true := by
  induction as generalizing bs cs with
  | nil => intro _ _; simp [listCharLe]
  | cons a as ih =>
    cases bs with
    | nil => intro h _; simp [listCharLe] at h
    | cons b bs =>
      cases cs with
      | nil => intro _ h; simp [listCharLe] at h
      | cons c cs =>
        intro h1 h2
        simp only [listCharLe] at h1 h2 ⊢
        by_cases hab : a.toNat < b.toNat
        · by_cases hbc : b.toNat < c.toNat
          · simp [Nat.lt_trans hab hbc]
          · by_cases hcb : c.toNat < b.toNat
            · simp [hbc, hcb] at h2
            · have hac : a.toNat < c.toNat := by omega
              simp [hac]
        · by_cases hba : b.toNat < a.toNat
          · simp [hab, hba] at h1
          · by_cases hbc : b.toNat < c.toNat
            · have hac : a.toNat < c.toNat := by omega
              simp [hac]
            · by_cases hcb : c.toNat < b.toNat
              · simp [hbc, hcb] at h2
              · have h1' : listCharLe as bs = true := by
                  simpa [hab, hba] using h1
                have h2' : listCharLe bs cs = true := by
                  simpa [hbc, hcb] using h2
                have hac1 : ¬ a.toNat < c.toNat := by omega
                have hac2 : ¬ c.toNat < a.toNat := by omega
                simp [hac1, hac2, ih bs cs h1' h2']

theorem strLe_total (a b : String) : (strLe a b || strLe b a) = true :=
  listCharLe_total a.data b.data

theorem strLe_trans (a b c : String) :
    strLe a b = true → strLe b c = true → strLe a c = true :=
  listCharLe_trans a.data b.data c.data

theorem closestKeyLe_trans (x y z : String × Hit) :
    closestKeyLe x y = true → closestKeyLe y z = true →
      closestKeyLe x z = true := by
  simp only [closestKeyLe, decide_eq_true_iff]
  intro h1 h2
  rcases h1 with h1 | ⟨e1, a1⟩ <;> rcases h2 with h2 | ⟨e2, a2⟩
  · exact Or.inl (by linarith)
  · exact Or.inl (by linarith)
  · exact Or.inl (by linarith)
  · exact Or.inr ⟨e1.trans e2, le_trans a2 a1⟩

theorem closestKeyLe_total (x y : String × Hit) :
    (closestKeyLe x y || closestKeyLe y x) = true := by
  simp only [closestKeyLe, Bool.or_eq_true, decide_eq_true_iff]
  rcases lt_trichotomy x.2.ani y.2.ani with h | h | h
  · exact Or.inr (Or.inl h)
  · rcases le_total y.2.af x.2.af with h2 | h2
    · exact Or.inl (Or.inr ⟨h, h2⟩)
    · exact Or.inr (Or.inr ⟨h.symm, h2⟩)
  · exact Or.inl (Or.inl h)

theorem summaryKeyLe_trans (x y z : String × Hit) :
    summaryKeyLe x y = true → summaryKeyLe y z = true →
      summaryKeyLe x z = true := by
  simp only [summaryKeyLe, decide_eq_true_iff]
  intro h1 h2
  rcases h1 with h1 | ⟨e1, h1⟩ <;> rcases h2 with h2 | ⟨e2, h2⟩
  · exact Or.inl (by linarith)
  · exact Or.inl (by linarith)
  · exact Or.inl (by linarith)
  · refine Or.inr ⟨e1.trans e2, ?_⟩
    rcases h1 with h1 | ⟨f1, s1⟩ <;> rcases h2 with h2 | ⟨f2, s2⟩
    · exact Or.inl (by linarith)
    · exact Or.inl (by linarith)
    · exact Or.inl (by linarith)
    · exact Or.inr ⟨f1.trans f2, strLe_trans _ _ _ s1 s2⟩

theorem summaryKeyLe_total (x y : String × Hit) :
    (summaryKeyLe x y || summaryKeyLe y x) = true := by
  simp only [summaryKeyLe, Bool.or_eq_true, decide_eq_true_iff]
  rcases lt_trichotomy x.2.af y.2.af with h | h | h
  · exact Or.inr (Or.inl h)
  · rcases lt_trichotomy x.2.ani y.2.ani with h2 | h2 | h2
    · exact Or.inr (Or.inr ⟨h.symm, Or.inl h2⟩)
    · rcases Bool.or_eq_true _ _ |>.mp (strLe_total x.1 y.1) with h3 | h3
      · exact Or.inl (Or.inr ⟨h, Or.inr ⟨h2, h3⟩⟩)
      · exact Or.inr (Or.inr ⟨h.symm, Or.inr ⟨h2.symm, h3⟩⟩)
    · exact Or.inl (Or.inr ⟨h, Or.inl h2⟩)
  · exact Or.inl (Or.inl h)

theorem itemKeyLe_trans {α : Type} (x y z : String × α) :
    itemKeyLe x y = true → itemKeyLe y z = true → itemKeyLe x z = true :=
  strLe_trans x.1 y.1 z.1

theorem itemKeyLe_total {α : Type} (x y : String × α) :
    (itemKeyLe x y || itemKeyLe y x) = true :=
  strLe_total x.1 y.1

/-! Helper lemmas: the Python dict model. -/

theorem dlookup_append {α : Type} (k : String) (d₁ d₂ : List (String × α)) :
    dlookup k (d₁ ++ d₂) = (dlookup k d₁).or (dlookup k d₂) := by
  induction d₁ with
  | nil => simp [dlookup]
  | cons p ps ih => by_cases h : p.1 = k <;> simp [dlookup, h, ih]

theorem dlookup_map_replace_self {α : Type} (k : String) (v : α)
    (d : List (String × α)) :
    dlookup k (d.map (fun p => if p.1 = k then (k, v) else p)) =
      (dlookup k d).map (fun _ => v) := by
  induction d with
  | nil => simp [dlookup]
  | cons p ps ih =>
    by_cases h : p.1 = k
    · simp [dlookup, h]
    · simp [dlookup, h, ih]

theorem dlookup_map_replace_ne {α : Type} (k k' : String) (v : α)
    (d : List (String × α)) (h : k' ≠ k) :
    dlookup k' (d.map (fun p => if p.1 = k then (k, v) else p)) =
      dlookup k' d := by
  induction d with
  | nil => simp [dlookup]
  | cons p ps ih =>
    by_cases hp : p.1 = k
    · have : ¬ (k = k') := fun e => h e.symm
      simp [dlookup, hp, this, ih]
    · simp [dlookup, hp, ih]

theorem any_false_dlookup {α : Type} (k : String) (d : List (String × α))
    (h : d.any (fun p => decide (p.1 = k)) = false) : dlookup k d = none := by
  induction d with
  | nil => rfl
  | cons p ps ih =>
    simp only [List.any_cons, Bool.or_eq_false_iff] at h
    have hp : ¬ p.1 = k := by simpa using h.1
    simp [dlookup, hp, ih h.2]

theorem any_true_dlookup {α : Type} (k : String) (d : List (String × α))
    (h : d.any (fun p => decide (p.1 = k)) = true) :
    (dlookup k d).isSome = true := by
  induction d with
  | nil => simp at h
  | cons p ps ih =>
    by_cases hp : p.1 = k
    · simp [dlookup, hp]
    · simp only [List.any_cons, Bool.or_eq_true] at h
      rcases h with h | h
      · simp [hp] at h
      · simp [dlookup, hp, ih h]

theorem dlookup_dinsert_self {α : Type} (d : List (String × α))
    (k : String) (v : α) : dlookup k (dinsert d k v) = some v := by
  unfold dinsert
  by_cases h : d.any (fun p => decide (p.1 = k)) = true
  · rw [if_pos h, dlookup_map_replace_self]
    obtain ⟨w, hw⟩ := Option.isSome_iff_exists.mp (any_true_dlookup k d h)
    simp [hw]
  · rw [if_neg h, dlookup_append,
      any_false_dlookup k d (Bool.eq_false_iff.mpr h)]
    simp [dlookup, Option.or]

theorem dlookup_dinsert_ne {α : Type} (d : List (String × α))
    (k k' : String) (v : α) (h : k' ≠ k) :
    dlookup k' (dinsert d k v) = dlookup k' d := by
  unfold dinsert
  by_cases ha : d.any (fun p => decide (p.1 = k)) = true
  · rw [if_pos ha, dlookup_map_replace_ne k k' v d h]
  · rw [if_neg ha, dlookup_append]
    have : dlookup k' [(k, v)] = none := by
      have : ¬ (k = k') := fun e => h e.symm
      simp [dlookup, this]
    rw [this]
    cases dlookup k' d <;> simp [Option.or]

/-! Helper lemmas: `mapE` over `Except`. -/

theorem exceptMap_isOk {ε α β : Type} (f : α → β) (e : Except ε α) :
    (e.map f).isOk = e.isOk := by
  cases e <;> rfl

theorem mapE_ok_forall₂ {α β ε : Type} {f : α → Except ε β} :
    ∀ {l : List α} {out : List β}, mapE f l = .ok out →
      List.Forall₂ (fun a b => f a = .ok b) l out := by
  intro l
  induction l with
  | nil =>
    intro out h
    simp only [mapE] at h
    cases h
    exact .nil
  | cons x xs ih =>
    intro out h
    simp only [mapE] at h
    cases hfx : f x with
    | error e => rw [hfx] at h; cases h
    | ok y =>
      rw [hfx] at h
      cases hrest : mapE f xs with
      | error e => rw [hrest] at h; cases h
      | ok ys =>
        rw [hrest] at h
        simp only [Except.map] at h
        cases h
        exact List.Forall₂.cons hfx (ih hrest)

theorem forall₂_mem_right {α β : Type} {R : α → β → Prop} :
    ∀ {l : List α} {l' : List β}, List.Forall₂ R l l' →
      ∀ {y : β}, y ∈ l' → ∃ x ∈ l, R x y := by
  intro l l' hf
  induction hf with
  | nil => intro y hy; cases hy
  | cons hR _ ih =>
    intro y hy
    rcases List.mem_cons.mp hy with hy | hy
    · exact ⟨_, List.mem_cons_self _ _, hy ▸ hR⟩
    · obtain ⟨x, hx, hRxy⟩ := ih hy
      exact ⟨x, List.mem_cons_of_mem _ hx, hRxy⟩

theorem forall₂_mem_left {α β : Type} {R : α → β → Prop} :
    ∀ {l : List α} {l' : List β}, List.Forall₂ R l l' →
      ∀ {x : α}, x ∈ l → ∃ y ∈ l', R x y := by
  intro l l' hf
  induction hf with
  | nil => intro x hx; cases hx
  | cons hR _ ih =>
    intro x hx
    rcases List.mem_cons.mp hx with hx | hx
    · exact ⟨_, List.mem_cons_self _ _, hx ▸ hR⟩
    · obtain ⟨y, hy, hRxy⟩ := ih hx
      exact ⟨y, List.mem_cons_of_mem _ hy, hRxy⟩

theorem mapE_ok_mem {α β ε : Type} {f : α → Except ε β} {l : List α}
    {out : List β} (h : mapE f l = .ok out) {y : β} (hy : y ∈ out) :
    ∃ x ∈ l, f x = .ok y :=
  forall₂_mem_right (mapE_ok_forall₂ h) hy

theorem mapE_mem_ok {α β ε : Type} {f : α → Except ε β} {l : List α}
    {out : List β} (h : mapE f l = .ok out) {x : α} (hx : x ∈ l) :
    ∃ y ∈ out, f x = .ok y :=
  forall₂_mem_left (mapE_ok_forall₂ h) hx

theorem mapE_isOk_iff {α β ε : Type} {f : α → Except ε β} :
    ∀ {l : List α}, (mapE f l).isOk = true ↔ ∀ x ∈ l, (f x).isOk = true := by
  intro l
  induction l with
  | nil => simp [mapE, Except.isOk, Except.toBool]
  | cons x xs ih =>
    simp only [mapE]
    cases hfx : f x with
    | error e =>
      simp only [Except.isOk, Except.toBool, List.mem_cons]
      constructor
      · intro h; cases h
      · intro h
        have := h x (Or.inl rfl)
        rw [hfx] at this
        cases this
    | ok y =>
      rw [exceptMap_isOk]
      rw [ih]
      constructor
      · intro h z hz
        rcases List.mem_cons.mp hz with hz | hz
        · rw [hz, hfx]; rfl
        · exact h z hz
      · intro h z hz
        exact h z (List.mem_cons_of_mem _ hz)

theorem forall₂_pairwise {α β : Type} {R : α → β → Prop} {P : α → α → Prop}
    {Q : β → β → Prop}
    (hresp : ∀ a a' b b', R a b → R a' b' → P a a' → Q b b') :
    ∀ {l : List α} {l' : List β}, List.Forall₂ R l l' →
      l.Pairwise P → l'.Pairwise Q := by
  intro l l' hf
  induction hf with
  | nil => intro _; exact .nil
  | cons hR hf ih =>
    intro hp
    rcases List.pairwise_cons.mp hp with ⟨hhead, htail⟩
    refine List.Pairwise.cons ?_ (ih htail)
    intro y hy
    obtain ⟨x, hx, hRxy⟩ := forall₂_mem_right hf hy
    exact hresp _ _ _ _ hR hRxy (hhead x hx)

/-! Helper lemmas: the manifest loading loop. -/

theorem refFold_append (ext dir : String) (l₁ l₂ : List (String × String)) :
    ∀ st, refFold ext dir st (l₁ ++ l₂) =
      match refFold ext dir st l₁ with
      | .error e => .error e
      | .ok s => refFold ext dir s l₂ := by
  induction l₁ with
  | nil => intro st; rfl
  | cons x l₁ ih =>
    intro st
    simp only [List.cons_append, refFold]
    cases refStep ext dir st x with
    | error e => rfl
    | ok s => exact ih s

theorem refFold_ok_acc (ext dir : String) :
    ∀ (l : List (String × String)) st st',
      refFold ext dir st l = .ok st' → st'.1 = accAfter ext st.1 l := by
  intro l
  induction l with
  | nil =>
    intro st st' h
    cases h
    rfl
  | cons x l ih =>
    intro st st' h
    simp only [refFold] at h
    cases hm : endsWithS x.1 ext with
    | true =>
      simp only [refStep, hm, if_true] at h
      simp only [accAfter, hm, if_true]
      exact ih _ _ h
    | false =>
      simp only [refStep, hm, Bool.false_eq_true, if_false] at h
      simp only [accAfter, hm, Bool.false_eq_true, if_false]
      cases hst : st.1 with
      | none => rw [hst] at h; cases h
      | some a =>
        rw [hst] at h
        exact ih _ _ h

theorem refFold_some_isOk (ext dir : String) :
    ∀ (l : List (String × String)) st (a : String), st.1 = some a →
      (refFold ext dir st l).isOk = true := by
  intro l
  induction l with
  | nil => intro st a _; rfl
  | cons x l ih =>
    intro st a hst
    simp only [refFold]
    cases hm : endsWithS x.1 ext with
    | true =>
      simp only [refStep, hm, if_true]
      exact ih _ _ rfl
    | false =>
      simp only [refStep, hm, if_false, hst]
      exact ih _ _ rfl

theorem accAfter_eq_lastMatch (ext : String) :
    ∀ (l : List (String × String)) (st : Option String),
      accAfter ext st l =
        (lastMatchLine ext l).elim st (fun m => some (stripExt ext m.1)) := by
  intro l
  induction l with
  | nil => intro st; rfl
  | cons x t ih =>
    intro st
    simp only [accAfter, lastMatchLine, List.reverse_cons, List.find?_append]
    rw [show (accAfter ext (if endsWithS x.1 ext then some (stripExt ext x.1)
        else st) t) = _ from ih _]
    cases hL : t.reverse.find? (fun ln => endsWithS ln.1 ext) with
    | some m => simp [lastMatchLine, hL, Option.or]
    | none =>
      cases hm : endsWithS x.1 ext with
      | true => simp [lastMatchLine, hL, hm, Option.or, List.find?]
      | false => simp [lastMatchLine, hL, hm, Option.or, List.find?]

/-- Claim C10: if the very first manifest line lacks the expected extension,
`_get_ref_genomes` raises (the `accession` local is read before any
assignment) and returns no mapping, partial or otherwise. -/
theorem c10_first_line_without_ext_raises (ext dir : String)
    (n : String × String) (rest : List (String × String))
    (hn : endsWithS n.1 ext = false) :
    getRefGenomes ext dir (n :: rest) = .error .unboundAccession := by
  simp [getRefGenomes, refFold, refStep, hn, Except.map]

/-- Witness for C10 at a concrete manifest. -/
theorem c10_witness :
    getRefGenomes ".fna.gz" "d" (("bad.txt", "p") :: [("m.fna.gz", "p2")]) =
      .error .unboundAccession :=
  c10_first_line_without_ext_raises ".fna.gz" "d" ("bad.txt", "p")
    [("m.fna.gz", "p2")] (by rfl)

/-- Claim C5: a manifest line without the expected extension, preceded by
lines that load fine of which at least one has the extension, does not make
loading raise; the accession of the most recent extension-matching line is
silently reused as the key for the mismatching line's path, overwriting that
key's entry. -/
theorem c5_extension_mismatch_reuses_accession (ext dir : String)
    (l₁ l₂ : List (String × String)) (n : String × String)
    (hn : endsWithS n.1 ext = false)
    (hok : (getRefGenomes ext dir l₁).isOk = true)
    (hm : ∃ m ∈ l₁, endsWithS m.1 ext = true) :
    (getRefGenomes ext dir (l₁ ++ n :: l₂)).isOk = true ∧
    ∃ m, lastMatchLine ext l₁ = some m ∧
      ∃ res, getRefGenomes ext dir (l₁ ++ [n]) = .ok res ∧
        dlookup (stripExt ext m.1) res = some (pjoin dir n.2 n.1) := by
  have hok' : (refFold ext dir (none, []) l₁).isOk = true := by
    rw [getRefGenomes, exceptMap_isOk] at hok
    exact hok
  obtain ⟨st₁, hst₁⟩ : ∃ st₁, refFold ext dir (none, []) l₁ = .ok st₁ := by
    cases hf : refFold ext dir (none, []) l₁ with
    | error e => rw [hf] at hok'; cases hok'
    | ok s => exact ⟨s, rfl⟩
  obtain ⟨m, hmfind⟩ : ∃ m, lastMatchLine ext l₁ = some m := by
    apply Option.isSome_iff_exists.mp
    rw [lastMatchLine, List.find?_isSome]
    obtain ⟨m, hm1, hm2⟩ := hm
    exact ⟨m, List.mem_reverse.mpr hm1, hm2⟩
  have hacc : st₁.1 = some (stripExt ext m.1) := by
    rw [refFold_ok_acc ext dir l₁ _ _ hst₁, accAfter_eq_lastMatch, hmfind]
    rfl
  have hstep : refStep ext dir st₁ n =
      .ok (some (stripExt ext m.1),
        dinsert st₁.2 (stripExt ext m.1) (pjoin dir n.2 n.1)) := by
    simp [refStep, hn, hacc]
  constructor
  · rw [getRefGenomes, exceptMap_isOk, refFold_append, hst₁]
    simp only [refFold, hstep]
    exact refFold_some_isOk ext dir l₂ _ _ rfl
  · refine ⟨m, hmfind, ?_⟩
    have hfull : refFold ext dir (none, []) (l₁ ++ [n]) =
        .ok (some (stripExt ext m.1),
          dinsert st₁.2 (stripExt ext m.1) (pjoin dir n.2 n.1)) := by
      rw [refFold_append, hst₁]
      simp only [refFold, hstep]
    refine ⟨dinsert st₁.2 (stripExt ext m.1) (pjoin dir n.2 n.1), ?_, ?_⟩
    · rw [getRefGenomes, hfull]
      rfl
    · exact dlookup_dinsert_self _ _ _

/-- Witness for C5 at a concrete manifest. -/
theorem c5_witness :
    (getRefGenomes ".fna.gz" "d"
      ([("m.fna.gz", "p1")] ++ ("bad.txt", "p2") :: [])).isOk = true ∧
    ∃ m, lastMatchLine ".fna.gz" [("m.fna.gz", "p1")] = some m ∧
      ∃ res, getRefGenomes ".fna.gz" "d"
          ([("m.fna.gz", "p1")] ++ [("bad.txt", "p2")]) = .ok res ∧
        dlookup (stripExt ".fna.gz" m.1) res =
          some (pjoin "d" "p2" "bad.txt") :=
  c5_extension_mismatch_reuses_accession ".fna.gz" "d" [("m.fna.gz", "p1")]
    [] ("bad.txt", "p2") (by rfl) (by rfl)
    ⟨("m.fna.gz", "p1"), by simp, by rfl⟩

/-- Claim C7 counterexample: on the spec's two-line manifest the loaded
mapping has no key `genomeA` at all — the first whitespace token of a line is
bound as the filename, so the derived accession is `a/genomeA`. -/
theorem c7_counterexample :
    (getRefGenomes ".fna.gz" "ref"
      [("a/genomeA.fna.gz", "genomeA.fna.gz"),
       ("b/genomeB.fna.gz", "genomeB.fna.gz")]).map (dlookup "genomeA") =
      .ok none := by
  rfl

/-- Claim C7 amended: for that manifest the mapping sends accession
`a/genomeA` (the first token with the extension stripped) to the reference
directory joined with the second token and then the first token, and likewise
`b/genomeB`. -/
theorem c7_amended_mapping (dir : String) :
    getRefGenomes ".fna.gz" dir
      [("a/genomeA.fna.gz", "genomeA.fna.gz"),
       ("b/genomeB.fna.gz", "genomeB.fna.gz")] =
    .ok [("a/genomeA", pjoin dir "genomeA.fna.gz" "a/genomeA.fna.gz"),
         ("b/genomeB", pjoin dir "genomeB.fna.gz" "b/genomeB.fna.gz")] := by
  rfl

/-! Helper lemmas: dict built by left folds of insertions. -/

theorem dlookup_foldl_dinsert {α : Type} (k : String) :
    ∀ (l : List (String × α)) (d₀ : List (String × α)),
      dlookup k (l.foldl (fun d p => dinsert d p.1 p.2) d₀) =
        ((l.reverse.find? (fun p => decide (p.1 = k))).map
          (fun p => p.2)).or (dlookup k d₀) := by
  intro l
  induction l with
  | nil => intro d₀; simp [Option.or]
  | cons p t ih =>
    intro d₀
    simp only [List.foldl_cons, List.reverse_cons, List.find?_append]
    rw [ih]
    cases ht : t.reverse.find? (fun p => decide (p.1 = k)) with
    | some w => simp [Option.or]
    | none =>
      by_cases hp : p.1 = k
      · subst hp
        simp [List.find?, Option.or, dlookup_dinsert_self]
      · have : ¬ (decide (p.1 = k) = true) := by simpa using hp
        simp only [List.find?, decide_eq_true_iff]
        rw [dlookup_dinsert_ne _ _ _ _ (fun e => hp e.symm)]
        simp [hp, Option.or]

/-- Claim C6 counterexample: in `d_paths = {**genomes, **ref_genomes}` a key
present in both pools resolves to the reference pool's path, not the query
pool's. -/
theorem c6_counterexample :
    dlookup "g" (mergedPaths [("g", "query_path")] [("g", "ref_path")]) =
      some "ref_path" ∧
    dlookup "g" (mergedPaths [("g", "query_path")] [("g", "ref_path")]) ≠
      some "query_path" := by
  exact ⟨rfl, by decide⟩

/-- Claim C6 amended: the merge is deterministic last-write-wins, with the
query entry losing to the reference entry: any key bound in the reference
pool resolves in the combined lookup to its reference-pool path. -/
theorem c6_amended_reference_wins (genomes ref_genomes : List (String × String))
    (k v : String) (h : dlookup k (dictOfPairs ref_genomes) = some v) :
    dlookup k (mergedPaths genomes ref_genomes) = some v := by
  rw [dictOfPairs, dlookup_foldl_dinsert] at h
  have hfind : (ref_genomes.reverse.find? (fun p => decide (p.1 = k))).map
      (fun p => p.2) = some v := by
    cases hf : (ref_genomes.reverse.find? (fun p => decide (p.1 = k))).map
        (fun p => p.2) with
    | some w => rw [hf] at h; simpa [Option.or] using h
    | none => rw [hf] at h; simp [Option.or, dlookup] at h
  rw [mergedPaths, dictOfPairs, dlookup_foldl_dinsert, List.reverse_append,
    List.find?_append]
  obtain ⟨w, hw, hw2⟩ : ∃ w, ref_genomes.reverse.find?
      (fun p => decide (p.1 = k)) = some w ∧ w.2 = v := by
    cases hf : ref_genomes.reverse.find? (fun p => decide (p.1 = k)) with
    | some w => rw [hf] at hfind; exact ⟨w, rfl, by simpa using hfind⟩
    | none => rw [hf] at hfind; cases hfind
  rw [hw]
  simp [Option.or, hw2]

/-- Witness for C6 amended at a concrete collision. -/
theorem c6_amended_witness :
    dlookup "g" (mergedPaths [("g", "query_path")] [("g", "ref_path")]) =
      some "ref_path" :=
  c6_amended_reference_wins [("g", "query_path")] [("g", "ref_path")] "g"
    "ref_path" (by rfl)

/-! Helper lemma: candidate-set accumulation skips unrelated keys. -/

theorem buildCand_lookup_notmem (q : String) :
    ∀ (l : List (String × List String)) (d : List (String × Finset String)),
      q ∉ l.map (fun p => p.1) →
      dlookup q (l.foldl (fun d p =>
        dinsert d p.1 (((dlookup p.1 d).getD ∅) ∪ p.2.toFinset)) d) =
        dlookup q d := by
  intro l
  induction l with
  | nil => intro d _; rfl
  | cons p t ih =>
    intro d hq
    simp only [List.map_cons, List.mem_cons, not_or] at hq
    simp only [List.foldl_cons]
    rw [ih _ hq.2, dlookup_dinsert_ne _ _ _ _ hq.1]

/-- Claim C9: a query that the Mash prefilter reports with zero candidate
references stays in `d_compare`, mapped to the empty set, rather than being
dropped. -/
theorem c9_zero_candidates_retained (mash_results : List (String × List String))
    (q : String) (hnd : (mash_results.map (fun p => p.1)).Nodup)
    (hq : (q, ([] : List String)) ∈ mash_results) :
    dlookup q (buildCandidatesMash mash_results) = some ∅ := by
  obtain ⟨l₁, l₂, rfl⟩ := List.append_of_mem hq
  rw [List.map_append, List.map_cons, List.nodup_append] at hnd
  obtain ⟨-, h2, h3⟩ := hnd
  have hq2 : q ∉ l₂.map (fun p => p.1) := (List.nodup_cons.mp h2).1
  have hq1 : q ∉ l₁.map (fun p => p.1) :=
    fun hmem => h3 hmem (List.mem_cons_self q _)
  rw [buildCandidatesMash, List.foldl_append, List.foldl_cons]
  have hd1 : dlookup q (l₁.foldl (fun d p =>
      dinsert d p.1 (((dlookup p.1 d).getD ∅) ∪ p.2.toFinset)) []) = none := by
    rw [buildCand_lookup_notmem q l₁ [] hq1]
    rfl
  rw [buildCand_lookup_notmem q l₂ _ hq2]
  rw [hd1]
  simp only [Option.getD, List.toFinset_nil, Finset.union_empty]
  exact dlookup_dinsert_self _ _ _

/-- Witness for C9 at a concrete Mash result table. -/
theorem c9_witness :
    dlookup "q1" (buildCandidatesMash [("q1", [])]) = some ∅ :=
  c9_zero_candidates_retained [("q1", [])] "q1" (by decide) (by simp)

/-! Helper lemma: exhaustive case analysis of one closest-report row. -/

theorem closestRowFor_ok_cases (results : SimTable) (min_af : ℚ)
    (taxonomy : String → Option (List String)) (radii : String → ℚ)
    (canonical : String → String) (afThreshold : ℚ) (g : String)
    (row : List Field)
    (h : closestRowFor results min_af taxonomy radii canonical afThreshold g =
      .ok row) :
    (dlookup g results = none ∧
      row = Field.s g :: List.replicate 4 noResult) ∨
    (∃ hits, dlookup g results = some hits ∧
      (hits.filter fun x => decide (min_af ≤ x.2.af)).mergeSort closestKeyLe
        = [] ∧
      row = Field.s g :: List.replicate 5 noResult) ∨
    (∃ hits c rest tx, dlookup g results = some hits ∧
      (hits.filter fun x => decide (min_af ≤ x.2.af)).mergeSort closestKeyLe
        = c :: rest ∧
      taxonomy (canonical c.1) = some tx ∧
      row = [Field.s g, Field.s c.1, Field.q c.2.ani, Field.q c.2.af,
             Field.s (String.intercalate ";" tx),
             Field.b (decide (radii (canonical c.1) ≤ c.2.ani ∧
                              afThreshold ≤ c.2.af))]) := by
  cases hlook : dlookup g results with
  | none =>
    simp only [closestRowFor, hlook, Except.ok.injEq] at h
    subst h
    exact Or.inl ⟨rfl, rfl⟩
  | some hits =>
    cases hclosest : (hits.filter fun x =>
        decide (min_af ≤ x.2.af)).mergeSort closestKeyLe with
    | nil =>
      simp only [closestRowFor, hlook, hclosest, Except.ok.injEq] at h
      subst h
      exact Or.inr (Or.inl ⟨hits, rfl, hclosest, rfl⟩)
    | cons c rest =>
      cases htax : taxonomy (canonical c.1) with
      | none =>
        simp only [closestRowFor, hlook, hclosest, htax] at h
        cases h
      | some tx =>
        simp only [closestRowFor, hlook, hclosest, htax, Except.ok.injEq] at h
        subst h
        exact Or.inr (Or.inr ⟨hits, c, rest, tx, rfl, hclosest, htax, rfl⟩)

/-- Claim C1: in every full closest-report row the circumscription flag is
true exactly when the winner's ANI is at least the species radius looked up
under the canonical form of the winner's reference id and the winner's
alignment fraction is at least the fixed configuration constant
`AF_THRESHOLD` (a parameter here, distinct from the caller-supplied
`min_af`). -/
theorem c1_meets_radius_iff (results : SimTable) (genomes : List String)
    (min_af : ℚ) (taxonomy : String → Option (List String))
    (radii : String → ℚ) (canonical : String → String) (afThreshold : ℚ)
    (rows : List (List Field))
    (hok : writeClosest results genomes min_af taxonomy radii canonical
      afThreshold = .ok rows)
    (gid rgid : String) (ani af : ℚ) (txs : String) (meets : Bool)
    (hrow : [Field.s gid, Field.s rgid, Field.q ani, Field.q af,
             Field.s txs, Field.b meets] ∈ rows) :
    meets = true ↔ (radii (canonical rgid) ≤ ani ∧ afThreshold ≤ af) := by
  obtain ⟨g, hg, hrowg⟩ := mapE_ok_mem hok hrow
  rcases closestRowFor_ok_cases _ _ _ _ _ _ _ _ hrowg with
    ⟨-, heq⟩ | ⟨hits, -, -, heq⟩ | ⟨hits, c, rest, tx, -, -, -, heq⟩
  · simp [List.replicate, noResult] at heq
  · simp [List.replicate, noResult] at heq
  · simp only [List.cons.injEq, Field.s.injEq, Field.q.injEq, Field.b.injEq,
      and_true] at heq
    obtain ⟨-, e2, e3, e4, -, e6⟩ := heq
    rw [← e2, ← e3, ← e4] at e6
    rw [e6]
    exact decide_eq_true_iff

unseal List.merge List.mergeSort in
/-- Witness for C1 at a concrete table where the winner clears `min_af` but
not `AF_THRESHOLD`, so the flag is false. -/
theorem c1_witness :
    writeClosest [("q", [("r", (⟨95, 2⟩ : Hit))])] ["q"] 1
      (fun s => if s = "r" then some ["d__X"] else none) (fun _ => 90)
      (fun s => s) 3 =
      .ok [[Field.s "q", Field.s "r", Field.q 95, Field.q 2, Field.s "d__X",
            Field.b false]] ∧
    (false = true ↔ ((90 : ℚ) ≤ 95 ∧ (3 : ℚ) ≤ 2)) :=
  ⟨by rfl,
   c1_meets_radius_iff [("q", [("r", (⟨95, 2⟩ : Hit))])] ["q"] 1
     (fun s => if s = "r" then some ["d__X"] else none) (fun _ => 90)
     (fun s => s) 3 _ (by rfl) "q" "r" 95 2 "d__X" false (by decide)⟩

/-- Claim C2: the closest-match selection filters hits by
`af >= min_af`, sorts by descending ANI then descending AF, and takes the
head; consequently the winner of every full row has alignment fraction at
least `min_af`. -/
theorem c2_winner_af_ge_min (results : SimTable) (genomes : List String)
    (min_af : ℚ) (taxonomy : String → Option (List String))
    (radii : String → ℚ) (canonical : String → String) (afThreshold : ℚ)
    (rows : List (List Field))
    (hok : writeClosest results genomes min_af taxonomy radii canonical
      afThreshold = .ok rows)
    (gid rgid : String) (ani af : ℚ) (txs : String) (meets : Bool)
    (hrow : [Field.s gid, Field.s rgid, Field.q ani, Field.q af,
             Field.s txs, Field.b meets] ∈ rows) :
    min_af ≤ af := by
  obtain ⟨g, hg, hrowg⟩ := mapE_ok_mem hok hrow
  rcases closestRowFor_ok_cases _ _ _ _ _ _ _ _ hrowg with
    ⟨-, heq⟩ | ⟨hits, -, -, heq⟩ | ⟨hits, c, rest, tx, -, hclosest, -, heq⟩
  · simp [List.replicate, noResult] at heq
  · simp [List.replicate, noResult] at heq
  · have hc : c ∈ hits.filter fun x => decide (min_af ≤ x.2.af) := by
      have hmem : c ∈ (hits.filter fun x =>
          decide (min_af ≤ x.2.af)).mergeSort closestKeyLe := by
        rw [hclosest]
        exact List.mem_cons_self _ _
      exact (List.mergeSort_perm _ closestKeyLe).mem_iff.mp hmem
    have haf : min_af ≤ c.2.af :=
      decide_eq_true_iff.mp (List.mem_filter.mp hc).2
    simp only [List.cons.injEq, Field.s.injEq, Field.q.injEq, Field.b.injEq,
      and_true] at heq
    obtain ⟨-, -, -, e4, -, -⟩ := heq
    rw [← e4] at haf
    exact haf

unseal List.merge List.mergeSort in
/-- Witness for C2 at a concrete table where a higher-ANI hit is filtered
out by `min_af` and the winner clears it. -/
theorem c2_witness :
    writeClosest [("g", [("r1", (⟨98, 5⟩ : Hit)), ("r2", ⟨99, 1⟩)])] ["g"] 2
      (fun _ => some ["tx"]) (fun _ => 95) (fun s => s) 1 =
      .ok [[Field.s "g", Field.s "r1", Field.q 98, Field.q 5, Field.s "tx",
            Field.b true]] ∧
    (2 : ℚ) ≤ 5 :=
  ⟨by rfl,
   c2_winner_af_ge_min [("g", [("r1", (⟨98, 5⟩ : Hit)), ("r2", ⟨99, 1⟩)])]
     ["g"] 2 (fun _ => some ["tx"]) (fun _ => 95) (fun s => s) 1 _ (by rfl)
     "g" "r1" 98 5 "tx" true (by decide)⟩

/-- Claim C3: the closest-report row of each query genome has exactly one of
three shapes, determined by whether the query id is a key of the similarity
table and whether any of its hits clears `min_af`: absent key gives the
query id plus four placeholder fields, present key with all hits below
`min_af` gives five placeholder fields, and otherwise a full six-column
row. -/
theorem c3_row_shape_trichotomy (results : SimTable) (genomes : List String)
    (min_af : ℚ) (taxonomy : String → Option (List String))
    (radii : String → ℚ) (canonical : String → String) (afThreshold : ℚ)
    (rows : List (List Field))
    (hok : writeClosest results genomes min_af taxonomy radii canonical
      afThreshold = .ok rows)
    (gid : String) (hg : gid ∈ genomes) :
    ∃ row ∈ rows,
      (dlookup gid results = none →
        row = Field.s gid :: List.replicate 4 noResult) ∧
      (∀ hits, dlookup gid results = some hits →
        (∀ x ∈ hits, x.2.af < min_af) →
        row = Field.s gid :: List.replicate 5 noResult) ∧
      (∀ hits, dlookup gid results = some hits →
        (∃ x ∈ hits, min_af ≤ x.2.af) →
        ∃ rgid ani af txs meets,
          row = [Field.s gid, Field.s rgid, Field.q ani, Field.q af,
                 Field.s txs, Field.b meets]) := by
  have hg' : gid ∈ genomes.mergeSort strLe :=
    (List.mergeSort_perm genomes strLe).mem_iff.mpr hg
  obtain ⟨row, hrowmem, heq⟩ := mapE_mem_ok hok hg'
  refine ⟨row, hrowmem, ?_⟩
  rcases closestRowFor_ok_cases _ _ _ _ _ _ _ _ heq with
    ⟨hnone, hshape⟩ | ⟨hits, hsome, hnil, hshape⟩ |
    ⟨hits, c, rest, tx, hsome, hcons, htax, hshape⟩
  · refine ⟨fun _ => hshape, ?_, ?_⟩
    · intro hits hsome _
      rw [hnone] at hsome
      cases hsome
    · intro hits hsome _
      rw [hnone] at hsome
      cases hsome
  · refine ⟨?_, fun _ _ _ => hshape, ?_⟩
    · intro hnone
      rw [hnone] at hsome
      cases hsome
    · intro hits' hsome' hex
      rw [hsome] at hsome'
      cases hsome'
      obtain ⟨x, hx, hxaf⟩ := hex
      have hxf : x ∈ hits.filter fun x => decide (min_af ≤ x.2.af) :=
        List.mem_filter.mpr ⟨hx, decide_eq_true_iff.mpr hxaf⟩
      have : x ∈ (hits.filter fun x =>
          decide (min_af ≤ x.2.af)).mergeSort closestKeyLe :=
        (List.mergeSort_perm _ closestKeyLe).mem_iff.mpr hxf
      rw [hnil] at this
      cases this
  · refine ⟨?_, ?_, ?_⟩
    · intro hnone
      rw [hnone] at hsome
      cases hsome
    · intro hits' hsome' hall
      rw [hsome] at hsome'
      cases hsome'
      have hcmem : c ∈ hits.filter fun x => decide (min_af ≤ x.2.af) := by
        have : c ∈ (hits.filter fun x =>
            decide (min_af ≤ x.2.af)).mergeSort closestKeyLe := by
          rw [hcons]
          exact List.mem_cons_self _ _
        exact (List.mergeSort_perm _ closestKeyLe).mem_iff.mp this
      have h1 : min_af ≤ c.2.af :=
        decide_eq_true_iff.mp (List.mem_filter.mp hcmem).2
      have h2 : c.2.af < min_af := hall c (List.mem_filter.mp hcmem).1
      exact absurd h1 (not_le.mpr h2)
    · intro hits' hsome' hex
      exact ⟨c.1, c.2.ani, c.2.af, String.intercalate ";" tx, _, hshape⟩

unseal List.merge List.mergeSort in
/-- Witness for C3 at a concrete table whose only query was compared but has
no qualifying hit. -/
theorem c3_witness :
    writeClosest [("b", [("r", (⟨90, 0⟩ : Hit))])] ["b"] 1
      (fun _ => some ["t"]) (fun _ => 80) (fun s => s) 1 =
      .ok [Field.s "b" :: List.replicate 5 noResult] ∧
    ∃ row ∈ [Field.s "b" :: List.replicate 5 noResult],
      (dlookup "b" [("b", [("r", (⟨90, 0⟩ : Hit))])] = none →
        row = Field.s "b" :: List.replicate 4 noResult) ∧
      (∀ hits, dlookup "b" [("b", [("r", (⟨90, 0⟩ : Hit))])] = some hits →
        (∀ x ∈ hits, x.2.af < 1) →
        row = Field.s "b" :: List.replicate 5 noResult) ∧
      (∀ hits, dlookup "b" [("b", [("r", (⟨90, 0⟩ : Hit))])] = some hits →
        (∃ x ∈ hits, (1 : ℚ) ≤ x.2.af) →
        ∃ rgid ani af txs meets,
          row = [Field.s "b", Field.s rgid, Field.q ani, Field.q af,
                 Field.s txs, Field.b meets]) :=
  ⟨by rfl,
   c3_row_shape_trichotomy [("b", [("r", (⟨90, 0⟩ : Hit))])] ["b"] 1
     (fun _ => some ["t"]) (fun _ => 80) (fun s => s) 1 _ (by rfl) "b"
     (by simp)⟩

/-! Helper lemmas: fields of one summary row. -/

theorem summaryRowFor_ok_fields (taxonomy : String → Option (List String))
    (canonical : String → String) (q : String) (x : String × Hit)
    (r : SummaryRow) (h : summaryRowFor taxonomy canonical q x = .ok r) :
    r.qry = q ∧ r.ref = x.1 ∧ r.ani = x.2.ani ∧ r.af = x.2.af := by
  cases htax : taxonomy (canonical x.1) with
  | none =>
    simp only [summaryRowFor, htax] at h
    cases h
  | some tx =>
    simp only [summaryRowFor, htax, Except.ok.injEq] at h
    subst h
    exact ⟨rfl, rfl, rfl, rfl⟩

theorem summaryRowsFor_ok_qry (taxonomy : String → Option (List String))
    (canonical : String → String) (it : String × List (String × Hit))
    (bl : List SummaryRow) (h : summaryRowsFor taxonomy canonical it = .ok bl) :
    ∀ r ∈ bl, r.qry = it.1 := by
  intro r hr
  obtain ⟨x, hx, hxr⟩ := mapE_ok_mem h hr
  exact (summaryRowFor_ok_fields _ _ _ _ _ hxr).1

/-- Claim C4: summary-report rows are grouped by query id in ascending order
and, within one query, sorted by descending alignment fraction, then
descending ANI, then ascending reference id; no two rows for the same query
violate this order. -/
theorem c4_summary_row_order (results : SimTable)
    (taxonomy : String → Option (List String)) (canonical : String → String)
    (rows : List SummaryRow)
    (hnd : (results.map (fun p => p.1)).Nodup)
    (hok : writeSummary results taxonomy canonical = .ok rows) :
    rows.Pairwise (fun r1 r2 =>
      (strLe r1.qry r2.qry = true ∧ r1.qry ≠ r2.qry) ∨
      (r1.qry = r2.qry ∧
        (r2.af < r1.af ∨ (r1.af = r2.af ∧
          (r2.ani < r1.ani ∨
            (r1.ani = r2.ani ∧ strLe r1.ref r2.ref = true)))))) := by
  obtain ⟨blocks, hmap, hflat⟩ : ∃ blocks,
      mapE (summaryRowsFor taxonomy canonical)
        (results.mergeSort itemKeyLe) = .ok blocks ∧ blocks.flatten = rows := by
    cases hb : mapE (summaryRowsFor taxonomy canonical)
        (results.mergeSort itemKeyLe) with
    | error e =>
      simp only [writeSummary, hb, Except.map] at hok
      cases hok
    | ok blocks =>
      simp only [writeSummary, hb, Except.map, Except.ok.injEq] at hok
      exact ⟨blocks, rfl, hok⟩
  have hforall := mapE_ok_forall₂ hmap
  rw [← hflat]
  refine List.pairwise_flatten.mpr ⟨?_, ?_⟩
  · intro bl hbl
    obtain ⟨it, hit, hb⟩ := forall₂_mem_right hforall hbl
    have hsortedHits :=
      List.sorted_mergeSort summaryKeyLe_trans summaryKeyLe_total it.2
    have hf2 := mapE_ok_forall₂ hb
    have hq := summaryRowsFor_ok_qry _ _ _ _ hb
    have hQ : bl.Pairwise (fun r1 r2 =>
        r2.af < r1.af ∨ (r1.af = r2.af ∧
          (r2.ani < r1.ani ∨
            (r1.ani = r2.ani ∧ strLe r1.ref r2.ref = true)))) := by
      refine forall₂_pairwise ?_ hf2 hsortedHits
      intro x x' r r' hxr hxr' hP
      obtain ⟨-, e2, e3, e4⟩ := summaryRowFor_ok_fields _ _ _ _ _ hxr
      obtain ⟨-, f2, f3, f4⟩ := summaryRowFor_ok_fields _ _ _ _ _ hxr'
      simp only [summaryKeyLe, decide_eq_true_iff] at hP
      rw [e2, e3, e4, f2, f3, f4]
      exact hP
    refine hQ.imp_of_mem ?_
    intro r1 r2 h1 h2 hrel
    exact Or.inr ⟨(hq r1 h1).trans (hq r2 h2).symm, hrel⟩
  · have hitems : (results.mergeSort itemKeyLe).Pairwise
        (fun a b => itemKeyLe a b = true ∧ a.1 ≠ b.1) := by
      have h1 := List.sorted_mergeSort itemKeyLe_trans itemKeyLe_total results
      have h2 : ((results.mergeSort itemKeyLe).map (fun p => p.1)).Nodup :=
        (((List.mergeSort_perm results itemKeyLe).map
          (fun p => p.1)).symm).nodup hnd
      have h3 : (results.mergeSort itemKeyLe).Pairwise
          (fun a b => a.1 ≠ b.1) := List.pairwise_map.mp h2
      exact h1.and h3
    refine forall₂_pairwise ?_ hforall hitems
    intro it it' bl bl' hb hb' hP x hx y hy
    have hx1 := summaryRowsFor_ok_qry _ _ _ _ hb x hx
    have hy1 := summaryRowsFor_ok_qry _ _ _ _ hb' y hy
    refine Or.inl ⟨?_, ?_⟩
    · rw [hx1, hy1]
      exact hP.1
    · rw [hx1, hy1]
      exact hP.2

unseal List.merge List.mergeSort in
/-- Witness for C4 at a concrete two-query table whose insertion order is not
the emission order. -/
theorem c4_witness :
    writeSummary [("q2", [("r1", (⟨95, 1⟩ : Hit))]),
                  ("q1", [("ra", (⟨90, 2⟩ : Hit)), ("rb", ⟨99, 1⟩)])]
      (fun _ => some ["t"]) (fun s => s) =
      .ok [⟨"q1", "ra", 90, 2, "t"⟩, ⟨"q1", "rb", 99, 1, "t"⟩,
           ⟨"q2", "r1", 95, 1, "t"⟩] ∧
    ([(⟨"q1", "ra", 90, 2, "t"⟩ : SummaryRow), ⟨"q1", "rb", 99, 1, "t"⟩,
      ⟨"q2", "r1", 95, 1, "t"⟩].Pairwise (fun r1 r2 =>
      (strLe r1.qry r2.qry = true ∧ r1.qry ≠ r2.qry) ∨
      (r1.qry = r2.qry ∧
        (r2.af < r1.af ∨ (r1.af = r2.af ∧
          (r2.ani < r1.ani ∨
            (r1.ani = r2.ani ∧ strLe r1.ref r2.ref = true))))))) :=
  ⟨by rfl,
   c4_summary_row_order [("q2", [("r1", (⟨95, 1⟩ : Hit))]),
     ("q1", [("ra", (⟨90, 2⟩ : Hit)), ("rb", ⟨99, 1⟩)])]
     (fun _ => some ["t"]) (fun s => s) _ (by decide) (by rfl)⟩

unseal List.merge List.mergeSort in
/-- Claim C8 counterexample: a similarity table containing a reference id
whose canonical form is missing from the taxonomy for which the closest
writer nevertheless succeeds, because that reference is filtered out by
`min_af` and only the winner's taxonomy is looked up. -/
theorem c8_counterexample :
    (fun s => if s = "rG" then some ["d__X"] else none)
      ((fun s : String => s) "rB") = none ∧
    ("rB", (⟨90, 0⟩ : Hit)) ∈ [("rB", (⟨90, 0⟩ : Hit)), ("rG", ⟨99, 2⟩)] ∧
    dlookup "q" [("q", [("rB", (⟨90, 0⟩ : Hit)), ("rG", ⟨99, 2⟩)])] =
      some [("rB", ⟨90, 0⟩), ("rG", ⟨99, 2⟩)] ∧
    (writeClosest [("q", [("rB", (⟨90, 0⟩ : Hit)), ("rG", ⟨99, 2⟩)])] ["q"] 1
      (fun s => if s = "rG" then some ["d__X"] else none) (fun _ => 95)
      (fun s => s) 1).isOk = true :=
  ⟨rfl, by decide, rfl, by rfl⟩

/-- Claim C8 amended: a taxonomy miss for a reference genome being written is
fatal.  In the summary writer every reference id of the table is written, so
any missing canonical id aborts the write; in the closest writer only the
selected winner's taxonomy is looked up, so the write aborts exactly when the
winner's canonical id is missing. -/
theorem c8_amended_taxonomy_miss_fatal :
    (∀ (results : SimTable) (taxonomy : String → Option (List String))
       (canonical : String → String) (q : String)
       (hits : List (String × Hit)) (r : String × Hit),
      (q, hits) ∈ results → r ∈ hits → taxonomy (canonical r.1) = none →
      (writeSummary results taxonomy canonical).isOk = false) ∧
    (∀ (results : SimTable) (genomes : List String) (min_af : ℚ)
       (taxonomy : String → Option (List String)) (radii : String → ℚ)
       (canonical : String → String) (afThreshold : ℚ) (gid : String)
       (hits : List (String × Hit)) (c : String × Hit)
       (rest : List (String × Hit)),
      gid ∈ genomes → dlookup gid results = some hits →
      (hits.filter fun x => decide (min_af ≤ x.2.af)).mergeSort closestKeyLe
        = c :: rest →
      taxonomy (canonical c.1) = none →
      (writeClosest results genomes min_af taxonomy radii canonical
        afThreshold).isOk = false) := by
  constructor
  · intro results taxonomy canonical q hits r hqr hr htax
    cases hB : (writeSummary results taxonomy canonical).isOk with
    | false => rfl
    | true =>
      exfalso
      have h1 : (mapE (summaryRowsFor taxonomy canonical)
          (results.mergeSort itemKeyLe)).isOk = true := by
        simp only [writeSummary] at hB
        rw [exceptMap_isOk] at hB
        exact hB
      have h2 := mapE_isOk_iff.mp h1 (q, hits)
        ((List.mergeSort_perm results itemKeyLe).mem_iff.mpr hqr)
      have h3 := mapE_isOk_iff.mp h2 r
        ((List.mergeSort_perm hits summaryKeyLe).mem_iff.mpr hr)
      simp only [summaryRowFor, htax, Except.isOk, Except.toBool] at h3
      exact Bool.noConfusion h3
  · intro results genomes min_af taxonomy radii canonical afThreshold gid
      hits c rest hg hlook hsort htax
    cases hB : (writeClosest results genomes min_af taxonomy radii canonical
        afThreshold).isOk with
    | false => rfl
    | true =>
      exfalso
      have h1 : (mapE (closestRowFor results min_af taxonomy radii canonical
          afThreshold) (genomes.mergeSort strLe)).isOk = true := hB
      have h2 := mapE_isOk_iff.mp h1 gid
        ((List.mergeSort_perm genomes strLe).mem_iff.mpr hg)
      simp only [closestRowFor, hlook, hsort, htax, Except.isOk,
        Except.toBool] at h2
      exact Bool.noConfusion h2

unseal List.merge List.mergeSort in
/-- Witness for C8 amended: both writers abort on concrete tables whose
written reference has no taxonomy entry. -/
theorem c8_witness :
    (writeSummary [("q", [("rB", (⟨90, 0⟩ : Hit))])] (fun _ => none)
      (fun s => s)).isOk = false ∧
    (writeClosest [("q", [("rB", (⟨90, 2⟩ : Hit))])] ["q"] 1 (fun _ => none)
      (fun _ => 95) (fun s => s) 1).isOk = false :=
  ⟨c8_amended_taxonomy_miss_fatal.1 [("q", [("rB", (⟨90, 0⟩ : Hit))])]
     (fun _ => none) (fun s => s) "q" [("rB", ⟨90, 0⟩)] ("rB", ⟨90, 0⟩)
     (by decide) (by decide) rfl,
   c8_amended_taxonomy_miss_fatal.2 [("q", [("rB", (⟨90, 2⟩ : Hit))])] ["q"]
     1 (fun _ => none) (fun _ => 95) (fun s => s) 1 "q" [("rB", ⟨90, 2⟩)]
     ("rB", ⟨90, 2⟩) [] (by decide) (by rfl) (by rfl) rfl⟩

end AniRep
